import Mathlib

/-!
Verification of the memory-management and paging core of a 32-bit x86 kernel.

Shallow embedding of:
* `src/cpu/paging/model.rs`   — page-table entry bit layout and index extraction;
* `src/cpu/paging/address_space.rs` — `AddressSpace` with `translate`, `map_4kib`,
  `map_4mib`, `map_range` and the `Context` capability;
* `src/state/allocator.rs`    — the physical frame allocator (free-list stack);
* `src/utility/init_allocator.rs` — the boot bump allocator (`InitAllocator`).

Machine integers (`u32`, 32-bit `usize`) are embedded as `Nat`; bit operations
use `Nat` bitwise operators, and additions that can wrap in the source are
taken modulo `2^32`.  Physical memory is a total function from a page address
to a 1024-entry table (a page read through `Context::map`, which is the
identity in both implementations present in the repository).  The `Context`
allocation capability is embedded as the list of physical pages it will hand
out, in order; `allocate` pops the head and fails (OutOfMemory) on the empty
list.
-/

namespace Kfs

/-- The size of a single 4 KiB page (`FOUR_KIB` in `address_space.rs`). -/
def FOUR_KIB : Nat := 4096

/-- The size of a single 4 MiB page (`FOUR_MIB` in `address_space.rs`). -/
def FOUR_MIB : Nat := 4096 * 1024

/-- Wrap-around modulus of `u32` and of `usize` on the 32-bit target. -/
def U32_MOD : Nat := 2 ^ 32

/-- Embeds `PageTableFlags::PRESENT` (bit 0). -/
def PRESENT : Nat := 1

/-- Embeds `PageTableFlags::WRITABLE` (bit 1). -/
def WRITABLE : Nat := 2

/-- Embeds `PageTableFlags::HUGE_PAGE` (bit 7). -/
def HUGE_PAGE : Nat := 128

/-- Embeds `PageTableFlags::is_present`: `self.intersects(PRESENT)`. -/
def is_present (e : Nat) : Bool := e &&& PRESENT != 0

/-- Embeds `PageTableFlags::is_huge_page`: `self.intersects(HUGE_PAGE)`. -/
def is_huge_page (e : Nat) : Bool := e &&& HUGE_PAGE != 0

/-- Embeds `PageTableFlags::address_4kib`: `self.bits() & !0xFFF` (clears the low
12 bits of the 32-bit entry). -/
def address_4kib (e : Nat) : Nat := e &&& 0xFFFFF000

/-- Modelled from the spec: `PageTableFlags::address_4mib` is used by
`AddressSpace::translate` but is not part of the sources under `src/`.
Per the data model, a huge-page directory entry contains a 4 MiB-aligned
address whose low 22 bits are zero, so the address is the entry with the
low 22 bits (flag and reserved bits) cleared. -/
def address_4mib (e : Nat) : Nat := e &&& 0xFFC00000

/-- Embeds `PageTableIndex::new` range check: `debug_assert!(value < 1024)`. -/
def ptIndexAssertOk (value : Nat) : Prop := value < 1024

/-- Embeds `PageTableIndex::extract_page_directory_index`: `virt_addr >> 22`. -/
def extract_page_directory_index (virt : Nat) : Nat := virt >>> 22

/-- Embeds `PageTableIndex::extract_page_table_index`: `(virt_addr >> 12) & 0x3FF`. -/
def extract_page_table_index (virt : Nat) : Nat := (virt >>> 12) &&& 0x3FF

/-- Embeds `PageTableIndex::extract_offset`: `virt_addr & 0xFFF`. -/
def extract_offset (virt : Nat) : Nat := virt &&& 0xFFF

/-- Modelled from the spec: `PageTableIndex::extract_4kib_offset` is used by
`AddressSpace::translate` but missing from `src/`; per the spec, `translate`
returns `p + (v mod 4096)`, so the 4 KiB in-page offset is `v mod 4096`. -/
def extract_4kib_offset (virt : Nat) : Nat := virt % 4096

/-- Modelled from the spec: `PageTableIndex::extract_4mib_offset` is used by
`AddressSpace::translate` but missing from `src/`; per the spec, a huge-page
directory entry is resolved "by adding the 22-bit offset directly", so the
4 MiB in-page offset is `v mod 2^22`. -/
def extract_4mib_offset (virt : Nat) : Nat := virt % FOUR_MIB

/-- A page of physical memory viewed as a `PageTable`: entry index to
32-bit entry value. -/
abbrev Page := Nat → Nat

/-- Physical memory: physical page address to page contents. -/
abbrev Memory := Nat → Page

/-- The all-zero page; `write_bytes(0x00, 1)` produces it. -/
def zeroPage : Page := fun _ => 0

/-- Zero-initialized physical memory. -/
def zeroMemory : Memory := fun _ => zeroPage

/-- Overwrite one whole page of physical memory. -/
def writePage (m : Memory) (page : Nat) (t : Page) : Memory :=
  fun a => if a = page then t else m a

/-- Overwrite one table entry inside one page of physical memory. -/
def writeEntry (m : Memory) (page idx e : Nat) : Memory :=
  fun a => if a = page then (fun j => if j = idx then e else m page j) else m a

/-- An error that might occur while mapping memory (`MappingError`). -/
inductive MappingError where
  | outOfMemory
  | alreadyMapped
deriving DecidableEq, Repr

/-- State of an `AddressSpace<C>` together with the physical memory it works
in: `root` is the physical address of the page directory, `free` embeds the
`Context`'s allocation capability (the pages `Context::allocate` will return,
in order). -/
structure ASState where
  mem : Memory
  free : List Nat
  root : Nat

/-- Embeds `AddressSpace::new`: allocate one page through the context and zero it;
`none` embeds `Err(OutOfMemory)`. -/
def ASState.new (m : Memory) (free : List Nat) : Option ASState :=
  match free with
  | [] => none
  | r :: rest => some ⟨writePage m r zeroPage, rest, r⟩

/-- Embeds `update_flags(parent, child)`: `*parent |= child`. -/
def update_flags (parent child : Nat) : Nat := parent ||| child

/-- Embeds `AddressSpace::translate`. -/
def translate (s : ASState) (virt : Nat) : Option Nat :=
  let pde := s.mem s.root (extract_page_directory_index virt)
  if is_present pde = false then
    none
  else if is_huge_page pde then
    some (extract_4mib_offset virt + address_4mib pde)
  else
    let pte := s.mem (address_4kib pde) (extract_page_table_index virt)
    if is_present pte then
      some (extract_4kib_offset virt + address_4kib pte)
    else
      none

/-- Embeds `AddressSpace::map_4kib`.  The returned state is the mutated `self`
(also on the error paths, which in the source return after mutating). -/
def map_4kib (s : ASState) (virt phys flags : Nat) : ASState × Option MappingError :=
  let pdeIndex := extract_page_directory_index virt
  let pteIndex := extract_page_table_index virt
  let pde := s.mem s.root pdeIndex
  if is_present pde = false then
    match s.free with
    | [] => (s, some .outOfMemory)
    | pta :: rest =>
      -- Initialize the page table, then update the page directory entry.
      -- NOTE (faithful to source line 133): the entry is built from `phys`,
      -- not from the freshly allocated table address `pta`.
      let mem1 := writePage s.mem pta zeroPage
      let mem2 := writeEntry mem1 s.root pdeIndex (flags ||| PRESENT ||| phys)
      let pte := mem2 pta pteIndex
      if is_present pte then
        (⟨mem2, rest, s.root⟩, some .alreadyMapped)
      else
        (⟨writeEntry mem2 pta pteIndex (flags ||| PRESENT ||| phys), rest, s.root⟩, none)
  else if is_huge_page pde then
    (s, some .alreadyMapped)
  else
    let newPde := update_flags pde flags
    let mem1 := writeEntry s.mem s.root pdeIndex newPde
    let pta := address_4kib newPde
    let pte := mem1 pta pteIndex
    if is_present pte then
      (⟨mem1, s.free, s.root⟩, some .alreadyMapped)
    else
      (⟨writeEntry mem1 pta pteIndex (flags ||| PRESENT ||| phys), s.free, s.root⟩, none)

/-- Embeds `AddressSpace::map_4mib`. -/
def map_4mib (s : ASState) (virt phys flags : Nat) : ASState × Option MappingError :=
  let pdeIndex := extract_page_directory_index virt
  let pde := s.mem s.root pdeIndex
  if is_present pde then
    (s, some .alreadyMapped)
  else
    (⟨writeEntry s.mem s.root pdeIndex (flags ||| PRESENT ||| HUGE_PAGE ||| phys),
      s.free, s.root⟩, none)

/-- Embeds `AddressSpace::map_range`: greedy loop preferring 4 MiB pages; address
increments wrap like the source's 32-bit `usize`/`u32` additions. -/
def map_range (s : ASState) (virt phys length flags : Nat) : ASState × Option MappingError :=
  if h0 : length = 0 then
    (s, none)
  else if FOUR_MIB ≤ length ∧ virt % FOUR_MIB = 0 ∧ phys % FOUR_MIB = 0 then
    match map_4mib s virt phys flags with
    | (s1, none) =>
      map_range s1 ((virt + FOUR_MIB) % U32_MOD) ((phys + FOUR_MIB) % U32_MOD)
        (length - FOUR_MIB) flags
    | (s1, some e) => (s1, some e)
  else
    match map_4kib s virt phys flags with
    | (s1, none) =>
      map_range s1 ((virt + FOUR_KIB) % U32_MOD) ((phys + FOUR_KIB) % U32_MOD)
        (length - FOUR_KIB) flags
    | (s1, some e) => (s1, some e)
termination_by length
decreasing_by
  · exact Nat.sub_lt (Nat.pos_of_ne_zero h0) (by decide)
  · exact Nat.sub_lt (Nat.pos_of_ne_zero h0) (by decide)

/-- Calling `map_4mib` once per 4 MiB step, stopping at the first error
(the reference sequence of claim C5). -/
def map4mibSeq (s : ASState) (virt phys flags : Nat) : Nat → ASState × Option MappingError
  | 0 => (s, none)
  | n + 1 =>
    match map_4mib s virt phys flags with
    | (s1, none) =>
      map4mibSeq s1 ((virt + FOUR_MIB) % U32_MOD) ((phys + FOUR_MIB) % U32_MOD) flags n
    | (s1, some e) => (s1, some e)

/-- Calling `map_4kib` once per 4 KiB step, stopping at the first error
(the reference sequence of claim C5). -/
def map4kibSeq (s : ASState) (virt phys flags : Nat) : Nat → ASState × Option MappingError
  | 0 => (s, none)
  | n + 1 =>
    match map_4kib s virt phys flags with
    | (s1, none) =>
      map4kibSeq s1 ((virt + FOUR_KIB) % U32_MOD) ((phys + FOUR_KIB) % U32_MOD) flags n
    | (s1, some e) => (s1, some e)

/-- Number of present entries in a table (used for "installs exactly N
directory entries"). -/
def countPresent (t : Page) : Nat :=
  ((List.range 1024).filter (fun i => is_present (t i))).length

/-- The physical frame allocator (`state/allocator.rs`).  The backing array
`pages` of capacity `cap` filled up to `len` is embedded as the list of its
first `len` entries in reverse order (most recently deposited frame first). -/
structure Allocator where
  cap : Nat
  pages : List Nat
deriving DecidableEq, Repr

/-- Embeds `Allocator::new(storage)`: starts empty over a backing array of the
given length. -/
def Allocator.new (cap : Nat) : Allocator := ⟨cap, []⟩

/-- Embeds `Allocator::deallocate(page)`: pushes the frame; `none` embeds the
`assert!(self.len < self.pages.len())` panic on a full backing array. -/
def Allocator.deallocate (s : Allocator) (page : Nat) : Option Allocator :=
  if s.pages.length < s.cap then some ⟨s.cap, page :: s.pages⟩ else none

/-- Embeds `Allocator::allocate()`: pops the most recently deposited frame; `none`
embeds `Err(OutOfMemory)`. -/
def Allocator.allocate (s : Allocator) : Option (Nat × Allocator) :=
  match s.pages with
  | [] => none
  | p :: rest => some (p, ⟨s.cap, rest⟩)

/-- Embeds `Allocator::remaining_memory()`: `self.len * 0x1000`. -/
def Allocator.remaining_memory (s : Allocator) : Nat := s.pages.length * 0x1000

/-- One operation on the frame allocator, for lifetime traces. -/
inductive FrameOp where
  | dealloc (page : Nat)
  | alloc
deriving DecidableEq, Repr

/-- Run a trace of frame-allocator operations from a state; returns the final
state and the frames returned by the successful `allocate` calls, or `none`
if a `deallocate` hit the full-array panic. -/
def runOps : Allocator → List FrameOp → Option (Allocator × List Nat)
  | s, [] => some (s, [])
  | s, .dealloc p :: ops => (s.deallocate p).bind (fun s1 => runOps s1 ops)
  | s, .alloc :: ops =>
    match s.allocate with
    | some (p, s1) => (runOps s1 ops).map (fun r => (r.1, p :: r.2))
    | none => runOps s ops

/-- Number of times the trace deposits the frame `a`. -/
def depositCount (ops : List FrameOp) (a : Nat) : Nat :=
  ops.countP (fun op => decide (op = FrameOp.dealloc a))

/-- The boot bump allocator (`utility/init_allocator.rs`). -/
structure InitAllocator where
  top : Nat
  base : Nat
deriving DecidableEq, Repr

/-- Embeds `InitAllocator::try_allocate_raw(layout)`: `top.checked_sub(size)`, then
align down (`addr &= !(align - 1)`, embedded as clearing `addr % align`;
for the power-of-two alignments `Layout` guarantees these agree), then the
`addr < base` bound check; `none` embeds `Err(OutOfMemory)`. -/
def InitAllocator.try_allocate_raw (s : InitAllocator) (size align : Nat) :
    Option (Nat × InitAllocator) :=
  if size ≤ s.top then
    let addr := (s.top - size) - (s.top - size) % align
    if addr < s.base then none
    else some (addr, ⟨addr, s.base⟩)
  else none

/-- Run a sequence of `(size, align)` layouts through `try_allocate_raw`,
keeping the state unchanged on a failing call (the source returns `Err`
without mutating `self.top`); returns the final state and the addresses
returned by the successful calls. -/
def runInit : InitAllocator → List (Nat × Nat) → InitAllocator × List Nat
  | s, [] => (s, [])
  | s, l :: ls =>
    match s.try_allocate_raw l.1 l.2 with
    | some (a, s1) =>
      let r := runInit s1 ls
      (r.1, a :: r.2)
    | none => runInit s ls

/-- A fresh address space over a mock context whose arena provides the pages
`0x10000, 0x11000, 0x12000` (inside a 64 KiB arena); the root directory is
`0x10000`, zero-filled by `AddressSpace::new`. -/
def mockAS : ASState := ⟨writePage zeroMemory 0x10000 zeroPage, [0x11000, 0x12000], 0x10000⟩

/-! ### Bit-arithmetic toolkit -/

/-- Sanity: `mockAS` is what `AddressSpace::new` builds over that context. -/
theorem mockAS_eq_new : ASState.new zeroMemory [0x10000, 0x11000, 0x12000] = some mockAS := rfl

theorem and_two_pow_eq_zero_iff {x k : Nat} : x &&& 2 ^ k = 0 ↔ x / 2 ^ k % 2 = 0 := by
  rw [Nat.and_two_pow, Nat.testBit_to_div_mod]
  rcases Nat.mod_two_eq_zero_or_one (x / 2 ^ k) with h | h <;>
    simp [h, (Nat.two_pow_pos k).ne']

theorem or_two_pow_eq_add {x k : Nat} (h : x / 2 ^ k % 2 = 0) : x ||| 2 ^ k = x + 2 ^ k := by
  have hr : x % 2 ^ k < 2 ^ k := Nat.mod_lt _ (Nat.two_pow_pos k)
  have hsplit : x % (2 ^ k * 2) = x % 2 ^ k := by
    rw [Nat.mod_mul, h, Nat.mul_zero, Nat.add_zero]
  have hx : x = 2 ^ (k + 1) * (x / 2 ^ (k + 1)) + x % 2 ^ k := by
    conv_lhs => rw [← Nat.div_add_mod x (2 ^ (k + 1))]
    rw [pow_succ, hsplit]
  have hpow : (2 : Nat) ^ (k + 1) = 2 ^ k * 2 := pow_succ 2 k
  have h1 : x = 2 ^ (k + 1) * (x / 2 ^ (k + 1)) ||| x % 2 ^ k := by
    conv_lhs => rw [hx]
    exact Nat.mul_add_lt_is_or (by omega) _
  have h2 : x % 2 ^ k ||| 2 ^ k = 2 ^ k + x % 2 ^ k := by
    rw [Nat.or_comm]
    have h3 := Nat.mul_add_lt_is_or hr 1
    rw [Nat.mul_one] at h3
    exact h3.symm
  have h4 : 2 ^ (k + 1) * (x / 2 ^ (k + 1)) ||| (2 ^ k + x % 2 ^ k) =
      2 ^ (k + 1) * (x / 2 ^ (k + 1)) + (2 ^ k + x % 2 ^ k) :=
    (Nat.mul_add_lt_is_or (by omega) _).symm
  conv_lhs => rw [h1]
  rw [Nat.or_assoc, h2, h4]
  omega

theorem and_eq_zero_of_lt_dvd {a m k : Nat} (ha : a < 2 ^ k) (hm : 2 ^ k ∣ m) :
    a &&& m = 0 := by
  apply Nat.eq_of_testBit_eq
  intro i
  rw [Nat.testBit_and, Nat.zero_testBit]
  rcases hm with ⟨q, rfl⟩
  by_cases hik : i < k
  · have hm0 : Nat.testBit (2 ^ k * q) i = false := by
      rw [Nat.testBit_mul_pow_two]
      simp [Nat.not_le.mpr hik]
    simp [hm0]
  · have ha0 : Nat.testBit a i = false :=
      Nat.testBit_lt_two_pow
        (lt_of_lt_of_le ha (Nat.pow_le_pow_right (by decide) (Nat.le_of_not_lt hik)))
    simp [ha0]

theorem and_high_mask_eq {x k n : Nat} (hkn : k ≤ n) (hx : x % 2 ^ k = 0) (hlt : x < 2 ^ n) :
    x &&& (2 ^ n - 2 ^ k) = x := by
  have hM : 2 ^ n - 2 ^ k = 2 ^ k * (2 ^ (n - k) - 1) := by
    rw [Nat.mul_sub, Nat.mul_one, ← pow_add, Nat.add_sub_cancel' hkn]
  apply Nat.eq_of_testBit_eq
  intro i
  rw [Nat.testBit_and]
  cases hbi : Nat.testBit x i with
  | false => simp
  | true =>
    have hik : k ≤ i := by
      by_contra hc
      have hmod : Nat.testBit (x % 2 ^ k) i = Nat.testBit x i := by
        rw [Nat.testBit_mod_two_pow]
        simp [Nat.lt_of_not_le hc]
      rw [hx, Nat.zero_testBit] at hmod
      rw [hbi] at hmod
      exact Bool.noConfusion hmod
    have hin : i < n := by
      by_contra hc
      have hhigh : Nat.testBit x i = false :=
        Nat.testBit_lt_two_pow
          (lt_of_lt_of_le hlt (Nat.pow_le_pow_right (by decide) (Nat.le_of_not_lt hc)))
      rw [hbi] at hhigh
      exact Bool.noConfusion hhigh
    have hMi : Nat.testBit (2 ^ n - 2 ^ k) i = true := by
      rw [hM, Nat.testBit_mul_pow_two, Nat.testBit_two_pow_sub_one]
      have : i - k < n - k := by omega
      simp [hik, this]
    simp [hMi]

theorem address_4kib_or_small {pde flags : Nat} (h : flags < 4096) :
    address_4kib (pde ||| flags) = address_4kib pde := by
  unfold address_4kib
  rw [Nat.and_distrib_right]
  have h0 : flags &&& 0xFFFFF000 = 0 := by
    apply and_eq_zero_of_lt_dvd (k := 12)
    · exact h
    · exact ⟨0xFFFFF, by norm_num⟩
  rw [h0, Nat.or_zero]

/-! ### Claim theorems -/

/-- Claim C1 (code-bug exhibit).  The claim says a successful
`map_4kib(v, p, F)` makes `translate(v + o)` return `some (p + o)`.  On a
fresh address space, `map_4kib(0x1000, 0x2000, WRITABLE)` succeeds, but
`translate(0x1000)` returns `none`: line 133 of `address_space.rs` installs
the page directory entry with address field `phys` (`0x2000`) instead of the
freshly allocated page table (`0x11000`), so the walk consults the wrong
page, which holds no present entry. -/
theorem claimC1_roundtrip_fails :
    (map_4kib mockAS 0x1000 0x2000 WRITABLE).2 = none ∧
    translate (map_4kib mockAS 0x1000 0x2000 WRITABLE).1 0x1000 = none := by
  decide

/-- Claim C2 (code-bug exhibit).  After a successful `map_4kib` on an absent
directory entry, exactly one fresh page was allocated (`0x11000`, leaving
`[0x12000]` in the context) and the directory entry is present with the
flags unioned in — but its address field is `0x2000` (= `phys`), not the
freshly allocated page table `0x11000`. -/
theorem claimC2_pde_address_is_phys :
    (map_4kib mockAS 0x1000 0x2000 WRITABLE).2 = none ∧
    (map_4kib mockAS 0x1000 0x2000 WRITABLE).1.free = [0x12000] ∧
    (map_4kib mockAS 0x1000 0x2000 WRITABLE).1.mem 0x10000 0 = 0x2003 ∧
    address_4kib ((map_4kib mockAS 0x1000 0x2000 WRITABLE).1.mem 0x10000 0) = 0x2000 ∧
    (0x2000 : Nat) ≠ 0x11000 := by
  decide

/-- Claim C3 (code-bug exhibit).  Mapping the same virtual address `0x1000`
twice with `map_4kib` (no intervening unmap) does NOT return `AlreadyMapped`
on the second call: because the directory entry's address field is `phys` of
the first call, the second call consults the table at `0x2000`, finds a
non-present entry, and succeeds — and the translation result changes from
`none` to `some 0x3000`. -/
theorem claimC3_double_map_not_detected :
    (map_4kib mockAS 0x1000 0x2000 WRITABLE).2 = none ∧
    (map_4kib (map_4kib mockAS 0x1000 0x2000 WRITABLE).1 0x1000 0x3000 WRITABLE).2 = none ∧
    translate (map_4kib mockAS 0x1000 0x2000 WRITABLE).1 0x1000 = none ∧
    translate (map_4kib (map_4kib mockAS 0x1000 0x2000 WRITABLE).1 0x1000 0x3000 WRITABLE).1
      0x1000 = some 0x3000 := by
  decide

/-- Claim C9 (code-bug exhibit).  Scenario A: over the mock context,
`map_4kib(0x1000, 0x2000, WRITABLE)` succeeds and `translate(0x1FFF)`
returns `none` as claimed, but `translate(0x1000)` returns `none`, not
`some 0x2000` (same root cause as C1). -/
theorem claimC9_scenarioA_fails :
    (map_4kib mockAS 0x1000 0x2000 WRITABLE).2 = none ∧
    translate (map_4kib mockAS 0x1000 0x2000 WRITABLE).1 0x1000 ≠ some 0x2000 ∧
    translate (map_4kib mockAS 0x1000 0x2000 WRITABLE).1 0x1000 = none ∧
    translate (map_4kib mockAS 0x1000 0x2000 WRITABLE).1 0x1FFF = none := by
  decide

/-- Claim C8, counterexample.  `extract_offset` masks the low 12 bits, so on
address `0x400` it produces `1024`, which is not `< 1024`: the debug-time
range assertion in `PageTableIndex::new` fails on this result. -/
theorem claimC8_counterexample :
    extract_offset 0x400 = 1024 ∧ ¬ ptIndexAssertOk (extract_offset 0x400) := by
  unfold ptIndexAssertOk extract_offset
  decide

/-- Claim C8 (amended).  For every 32-bit virtual address the directory-index
and table-index extractions are `< 1024`, so the checked constructor's debug
assertion never fails on them; the in-page-offset extraction however equals
`v mod 4096`, which reaches up to `4095`, and the assertion fails on every
address whose in-page offset is `≥ 1024`. -/
theorem claimC8_amended :
    (∀ v, v < U32_MOD →
      ptIndexAssertOk (extract_page_directory_index v) ∧
      ptIndexAssertOk (extract_page_table_index v) ∧
      extract_offset v = v % 4096) ∧
    (∀ v, 1024 ≤ v % 4096 → ¬ ptIndexAssertOk (extract_offset v)) := by
  have hoff : ∀ v : Nat, extract_offset v = v % 4096 := by
    intro v
    unfold extract_offset
    rw [show (0xFFF : Nat) = 2 ^ 12 - 1 by norm_num, Nat.and_pow_two_sub_one_eq_mod]
  constructor
  · intro v hv
    refine ⟨?_, ?_, hoff v⟩
    · unfold ptIndexAssertOk extract_page_directory_index
      rw [Nat.shiftRight_eq_div_pow]
      unfold U32_MOD at hv
      norm_num at hv ⊢
      omega
    · unfold ptIndexAssertOk extract_page_table_index
      have h := Nat.and_lt_two_pow (v >>> 12) (show (0x3FF : Nat) < 2 ^ 10 by norm_num)
      simpa using h
  · intro v hv
    rw [ptIndexAssertOk, hoff v]
    omega

/-- Claim C8, witness for the amended claim. -/
theorem claimC8_amended_witness :
    ptIndexAssertOk (extract_page_directory_index 0xFFFFF000) ∧
    ¬ ptIndexAssertOk (extract_offset 0x1C00) :=
  ⟨(claimC8_amended.1 0xFFFFF000 (by norm_num [U32_MOD])).1,
   claimC8_amended.2 0x1C00 (by norm_num)⟩

/-- Frame-conservation invariant of the frame allocator: along any trace
that does not overflow the backing array, the number of successful
`allocate` calls returning `a` plus the copies of `a` still on the free
list equals the copies initially on the list plus the deposits of `a`. -/
theorem runOps_count (a : Nat) :
    ∀ (ops : List FrameOp) (s s1 : Allocator) (log : List Nat),
      runOps s ops = some (s1, log) →
      log.count a + s1.pages.count a = s.pages.count a + depositCount ops a := by
  intro ops
  induction ops with
  | nil =>
    intro s s1 log h
    simp only [runOps, Option.some_inj] at h
    obtain ⟨h1, h2⟩ := Prod.mk.injEq _ _ _ _ ▸ h
    simp [← h1, ← h2, depositCount]
  | cons op ops ih =>
    intro s s1 log h
    cases op with
    | dealloc p =>
      simp only [runOps, Allocator.deallocate] at h
      split at h
      · rw [Option.some_bind] at h
        have hstep := ih ⟨s.cap, p :: s.pages⟩ s1 log h
        simp only [List.count_cons] at hstep
        simp only [depositCount, List.countP_cons]
        by_cases hpa : p = a <;> simp [hpa, depositCount] at hstep ⊢ <;> omega
      · rw [Option.none_bind] at h
        exact absurd h (by simp)
    | alloc =>
      simp only [runOps, Allocator.allocate] at h
      cases hp : s.pages with
      | nil =>
        rw [hp] at h
        have hstep := ih s s1 log h
        simpa [depositCount, List.countP_cons, hp] using hstep
      | cons p rest =>
        rw [hp] at h
        dsimp only at h
        cases hr : runOps ⟨s.cap, rest⟩ ops with
        | none => rw [hr] at h; exact absurd h (by simp)
        | some r =>
          rw [hr] at h
          simp only [Option.map_some', Option.some_inj] at h
          have hstep := ih ⟨s.cap, rest⟩ r.1 r.2 hr
          cases h
          simp only [List.count_cons, hp, depositCount, List.countP_cons] at hstep ⊢
          by_cases hpa : p = a <;> simp [hpa] at hstep ⊢ <;> omega

/-- Claim C6.  The physical frame allocator is a LIFO stack:
(1) with spare capacity, after `deallocate(f1); deallocate(f2)` the next
`allocate()` returns `f2`; (2) over the allocator's lifetime, a frame
deposited exactly once is returned by at most one successful `allocate()`;
(3) depositing `{0x100000, 0x101000, 0x102000}` into a fresh allocator and
allocating four times yields `0x102000, 0x101000, 0x100000`, then
out-of-memory. -/
theorem claimC6_lifo_stack :
    (∀ (s : Allocator) (f1 f2 : Nat), s.pages.length + 2 ≤ s.cap →
      s.deallocate f1 = some ⟨s.cap, f1 :: s.pages⟩ ∧
      Allocator.deallocate ⟨s.cap, f1 :: s.pages⟩ f2 = some ⟨s.cap, f2 :: f1 :: s.pages⟩ ∧
      Allocator.allocate ⟨s.cap, f2 :: f1 :: s.pages⟩ = some (f2, ⟨s.cap, f1 :: s.pages⟩)) ∧
    (∀ (cap : Nat) (ops : List FrameOp) (s1 : Allocator) (log : List Nat) (a : Nat),
      runOps (Allocator.new cap) ops = some (s1, log) →
      depositCount ops a = 1 → log.count a ≤ 1) ∧
    (runOps (Allocator.new 3)
        [.dealloc 0x100000, .dealloc 0x101000, .dealloc 0x102000, .alloc, .alloc, .alloc] =
      some (⟨3, []⟩, [0x102000, 0x101000, 0x100000]) ∧
      Allocator.allocate ⟨3, []⟩ = none) := by
  refine ⟨?_, ?_, by decide⟩
  · intro s f1 f2 h
    refine ⟨?_, ?_, rfl⟩
    · unfold Allocator.deallocate
      rw [if_pos (by omega)]
    · unfold Allocator.deallocate
      simp only [List.length_cons]
      rw [if_pos (by omega)]
  · intro cap ops s1 log a h hd
    have hinv := runOps_count a ops (Allocator.new cap) s1 log h
    simp only [Allocator.new, List.count_nil] at hinv
    omega

/-- Claim C6, witness. -/
theorem claimC6_lifo_stack_witness :
    Allocator.deallocate ⟨2, []⟩ 5 = some ⟨2, [5]⟩ ∧
    Allocator.deallocate ⟨2, [5]⟩ 7 = some ⟨2, [7, 5]⟩ ∧
    Allocator.allocate ⟨2, [7, 5]⟩ = some (7, ⟨2, [5]⟩) :=
  claimC6_lifo_stack.1 ⟨2, []⟩ 5 7 (by decide)

/-- Claim C7, counterexample to the claim as stated.  A successful
zero-size call returns an address equal to the original `top`, which does
not lie in the half-open interval `[base, original top)`: with
`base = 0x1000`, `top = 0x2000`, a `(size 0, align 1)` layout is allocated
at `0x2000` and `0x2000 < 0x2000` is false. -/
theorem claimC7_counterexample :
    InitAllocator.try_allocate_raw ⟨0x2000, 0x1000⟩ 0 1 =
      some (0x2000, ⟨0x2000, 0x1000⟩) ∧ ¬ ((0x2000 : Nat) < 0x2000) := by
  decide

/-- Claim C7 (amended).  For the boot bump allocator: a successful
`try_allocate_raw` keeps `base`, sets `top` to the returned address, which
is `≥ base`, aligned to the requested alignment, and at least `size` below
the previous `top` (strictly below it when `size ≠ 0`); a failing call
leaves the state unchanged; over any sequence of calls `top` is
non-increasing, never falls below `base` (when it started at or above it),
and every returned address lies in `[base, original top]`. -/
theorem claimC7_bump_invariants :
    (∀ (s : InitAllocator) (size align a : Nat) (s1 : InitAllocator),
      s.try_allocate_raw size align = some (a, s1) →
      s1.base = s.base ∧ s1.top = a ∧ s.base ≤ a ∧ a + size ≤ s.top ∧ align ∣ a ∧
        (size ≠ 0 → a < s.top)) ∧
    (∀ (s : InitAllocator) (size align : Nat),
      s.try_allocate_raw size align = none → runInit s [(size, align)] = (s, [])) ∧
    (∀ (ls : List (Nat × Nat)) (s : InitAllocator),
      (runInit s ls).1.base = s.base ∧ (runInit s ls).1.top ≤ s.top ∧
      (s.base ≤ s.top → s.base ≤ (runInit s ls).1.top) ∧
      ∀ a ∈ (runInit s ls).2, s.base ≤ a ∧ a ≤ s.top) := by
  have key : ∀ (s : InitAllocator) (size align a : Nat) (s1 : InitAllocator),
      s.try_allocate_raw size align = some (a, s1) →
      s1.base = s.base ∧ s1.top = a ∧ s.base ≤ a ∧ a + size ≤ s.top ∧ align ∣ a ∧
        (size ≠ 0 → a < s.top) := by
    intro s size align a s1 h
    simp only [InitAllocator.try_allocate_raw] at h
    split at h
    · split at h
      · exact absurd h (by simp)
      · rename_i hsz hlt
        simp only [Option.some_inj, Prod.mk.injEq] at h
        obtain ⟨ha, hs1⟩ := h
        have hdvd : align ∣ (s.top - size) - (s.top - size) % align := by
          have hdm := Nat.div_add_mod (s.top - size) align
          exact ⟨(s.top - size) / align, by omega⟩
        subst ha
        refine ⟨by rw [← hs1], by rw [← hs1], by omega, ?_, hdvd, ?_⟩
        · have hm := Nat.mod_le (s.top - size) align
          omega
        · intro hsz0
          have hm := Nat.mod_le (s.top - size) align
          omega
    · exact absurd h (by simp)
  refine ⟨key, ?_, ?_⟩
  · intro s size align h
    simp [runInit, h]
  · intro ls
    induction ls with
    | nil => intro s; simp [runInit]
    | cons l ls ih =>
      intro s
      cases hc : s.try_allocate_raw l.1 l.2 with
      | none =>
        simpa only [runInit, hc] using ih s
      | some r =>
        obtain ⟨a, s1⟩ := r
        have hk := key s l.1 l.2 a s1 hc
        have hi := ih s1
        simp only [runInit, hc]
        refine ⟨?_, ?_, ?_, ?_⟩
        · rw [hi.1, hk.1]
        · have := hi.2.1
          omega
        · intro hb
          have := hi.2.2.1 (by omega)
          omega
        · intro x hx
          simp only [List.mem_cons] at hx
          rcases hx with rfl | hx
          · omega
          · have := hi.2.2.2 x hx
            omega

/-- Claim C10.  When `map_4kib` fails with `AlreadyMapped` because the
directory entry for `v` is present and non-huge while the page-table entry
for `v` is present, the directory entry is left equal to its old value
unioned with the requested flags (the failure is not atomic for
directory-entry flags), and no other memory — in particular no page-table
entry — is modified.  Hypotheses: the flags carry no address bits
(`flags < 4096`, the data-model invariant) and the page table is a page
distinct from the root directory. -/
theorem claimC10_failed_map_unions_flags :
    ∀ (s : ASState) (v p flags : Nat),
      is_present (s.mem s.root (extract_page_directory_index v)) = true →
      is_huge_page (s.mem s.root (extract_page_directory_index v)) = false →
      flags < 4096 →
      address_4kib (s.mem s.root (extract_page_directory_index v)) ≠ s.root →
      is_present (s.mem (address_4kib (s.mem s.root (extract_page_directory_index v)))
        (extract_page_table_index v)) = true →
      (map_4kib s v p flags).2 = some MappingError.alreadyMapped ∧
      (map_4kib s v p flags).1.mem s.root (extract_page_directory_index v) =
        s.mem s.root (extract_page_directory_index v) ||| flags ∧
      (map_4kib s v p flags).1.free = s.free ∧
      (map_4kib s v p flags).1.root = s.root ∧
      (∀ a j, a ≠ s.root → (map_4kib s v p flags).1.mem a j = s.mem a j) := by
  intro s v p flags hpres hhuge hflags hsep hpte
  have hunfold : map_4kib s v p flags =
      (⟨writeEntry s.mem s.root (extract_page_directory_index v)
          (s.mem s.root (extract_page_directory_index v) ||| flags),
        s.free, s.root⟩, some .alreadyMapped) := by
    unfold map_4kib update_flags
    rw [if_neg (by simp [hpres]), if_neg (by simp [hhuge])]
    dsimp only
    rw [address_4kib_or_small hflags]
    have hr : writeEntry s.mem s.root (extract_page_directory_index v)
        (s.mem s.root (extract_page_directory_index v) ||| flags)
        (address_4kib (s.mem s.root (extract_page_directory_index v)))
        (extract_page_table_index v) =
        s.mem (address_4kib (s.mem s.root (extract_page_directory_index v)))
          (extract_page_table_index v) := by
      simp [writeEntry, hsep]
    rw [hr, if_pos hpte]
  rw [hunfold]
  refine ⟨rfl, ?_, rfl, rfl, ?_⟩
  · simp [writeEntry]
  · intro a j ha
    simp [writeEntry, ha]

/-- Claim C10, witness: a concrete state with a present, non-huge directory
entry `0x2003` at index 0 and a present page-table entry at `0x2000[1]`. -/
theorem claimC10_failed_map_unions_flags_witness :
    (map_4kib ⟨writeEntry (writeEntry zeroMemory 0x1000 0 0x2003) 0x2000 1 0x5003, [], 0x1000⟩
      0x1000 0x6000 2).2 = some MappingError.alreadyMapped :=
  (claimC10_failed_map_unions_flags
    ⟨writeEntry (writeEntry zeroMemory 0x1000 0 0x2003) 0x2000 1 0x5003, [], 0x1000⟩
    0x1000 0x6000 2 (by decide) (by decide) (by decide) (by decide) (by decide)).1

/-- Claim C4.  After a successful `map_4mib(v, p, F)` with 4 MiB-aligned
32-bit addresses and legal flags (no PRESENT/HUGE_PAGE bits, no address
bits), `translate(v + k)` returns `some (p + k)` for every `k` in
`[0, 4 MiB)`. -/
theorem claimC4_map4mib_roundtrip :
    ∀ (s : ASState) (v p flags : Nat),
      v < U32_MOD → p < U32_MOD → v % FOUR_MIB = 0 → p % FOUR_MIB = 0 →
      flags &&& (PRESENT ||| HUGE_PAGE) = 0 → flags < 4096 →
      (map_4mib s v p flags).2 = none →
      ∀ k, k < FOUR_MIB → translate (map_4mib s v p flags).1 (v + k) = some (p + k) := by
  intro s v p flags hv32 hp32 hv4 hp4 hfl hflt hok k hk
  have hpres : ¬ is_present (s.mem s.root (extract_page_directory_index v)) = true := by
    intro hc
    unfold map_4mib at hok
    rw [if_pos hc] at hok
    simp at hok
  have hunfold : map_4mib s v p flags =
      (⟨writeEntry s.mem s.root (extract_page_directory_index v)
          (flags ||| PRESENT ||| HUGE_PAGE ||| p), s.free, s.root⟩, none) := by
    unfold map_4mib
    rw [if_neg hpres]
  -- arithmetic preliminaries
  have h4MiB : FOUR_MIB = 4194304 := by norm_num [FOUR_MIB]
  rw [h4MiB] at hv4 hp4 hk
  have hU32 : U32_MOD = 4294967296 := by norm_num [U32_MOD]
  rw [hU32] at hv32 hp32
  have h129 : (PRESENT ||| HUGE_PAGE : Nat) = 129 := rfl
  rw [h129] at hfl
  have hfl1 : flags &&& 1 = 0 := by
    calc flags &&& 1 = flags &&& 129 &&& 1 := by
          rw [Nat.and_assoc, show (129 &&& 1 : Nat) = 1 from by decide]
      _ = 0 := by rw [hfl]; decide
  have hfl128 : flags &&& 128 = 0 := by
    calc flags &&& 128 = flags &&& 129 &&& 128 := by
          rw [Nat.and_assoc, show (129 &&& 128 : Nat) = 128 from by decide]
      _ = 0 := by rw [hfl]; decide
  have hmod2 : flags % 2 = 0 := by rw [← Nat.and_one_is_mod]; exact hfl1
  have hdiv128 : flags / 128 % 2 = 0 := by
    have h := and_two_pow_eq_zero_iff (x := flags) (k := 7)
    norm_num at h
    exact h.mp hfl128
  have hdvd : (4194304 : Nat) ∣ p := Nat.dvd_of_mod_eq_zero hp4
  obtain ⟨q, rfl⟩ := hdvd
  -- entry value as a plain sum
  have e1 : flags ||| PRESENT = flags + 1 := by
    have h := or_two_pow_eq_add (x := flags) (k := 0) (by simpa using hmod2)
    simpa [PRESENT] using h
  have e2 : flags + 1 ||| HUGE_PAGE = flags + 129 := by
    have h := or_two_pow_eq_add (x := flags + 1) (k := 7) (by omega)
    norm_num at h
    simp only [HUGE_PAGE]
    omega
  have e3 : 4194304 * q ||| (flags + 129) = 4194304 * q + (flags + 129) := by
    have h := Nat.mul_add_lt_is_or (i := 22) (b := flags + 129)
      (by norm_num; omega) q
    norm_num at h
    omega
  have hE : flags ||| PRESENT ||| HUGE_PAGE ||| 4194304 * q =
      4194304 * q ||| (flags + 129) := by
    rw [e1, e2, Nat.or_comm]
  have hEsum : flags ||| PRESENT ||| HUGE_PAGE ||| 4194304 * q =
      4194304 * q + (flags + 129) := by rw [hE, e3]
  -- entry predicates
  have hEpres : is_present (flags ||| PRESENT ||| HUGE_PAGE ||| 4194304 * q) = true := by
    unfold is_present
    rw [hEsum]
    simp only [PRESENT, bne_iff_ne, ne_eq]
    rw [Nat.and_one_is_mod]
    omega
  have hEhuge : is_huge_page (flags ||| PRESENT ||| HUGE_PAGE ||| 4194304 * q) = true := by
    unfold is_huge_page
    rw [hEsum]
    simp only [HUGE_PAGE, bne_iff_ne, ne_eq, decide_eq_true_eq]
    intro hc
    rw [show (128 : Nat) = 2 ^ 7 by norm_num, and_two_pow_eq_zero_iff] at hc
    norm_num at hc
    omega
  have hEaddr : address_4mib (flags ||| PRESENT ||| HUGE_PAGE ||| 4194304 * q) =
      4194304 * q := by
    simp only [address_4mib]
    rw [hE, Nat.and_distrib_right]
    have hz : (flags + 129) &&& 0xFFC00000 = 0 := by
      apply and_eq_zero_of_lt_dvd (k := 22)
      · norm_num
        omega
      · exact ⟨0x3FF, by norm_num⟩
    rw [hz, Nat.or_zero]
    rw [show (0xFFC00000 : Nat) = 2 ^ 32 - 2 ^ 22 by norm_num]
    apply and_high_mask_eq (by norm_num)
    · norm_num [Nat.mul_mod_right]
    · norm_num
      omega
  -- index of v + k is the index of v, and the offset is k
  have hpdik : extract_page_directory_index (v + k) = extract_page_directory_index v := by
    unfold extract_page_directory_index
    rw [Nat.shiftRight_eq_div_pow, Nat.shiftRight_eq_div_pow]
    norm_num
    omega
  rw [hunfold]
  simp only [translate]
  have hread : writeEntry s.mem s.root (extract_page_directory_index v)
      (flags ||| PRESENT ||| HUGE_PAGE ||| 4194304 * q) s.root
      (extract_page_directory_index (v + k)) =
      flags ||| PRESENT ||| HUGE_PAGE ||| 4194304 * q := by
    rw [hpdik]
    simp [writeEntry]
  rw [hread, if_neg (by simp [hEpres]), if_pos hEhuge, hEaddr]
  unfold extract_4mib_offset
  rw [h4MiB]
  have hoff : (v + k) % 4194304 = k := by omega
  rw [hoff]
  exact congrArg some (by omega)

/-- Claim C4, witness. -/
theorem claimC4_map4mib_roundtrip_witness :
    translate (map_4mib mockAS 0x400000 0x800000 WRITABLE).1 0x400123 = some 0x800123 := by
  have h := claimC4_map4mib_roundtrip mockAS 0x400000 0x800000 WRITABLE
    (by norm_num [U32_MOD]) (by norm_num [U32_MOD]) (by norm_num [FOUR_MIB])
    (by norm_num [FOUR_MIB]) (by decide) (by decide) (by decide) 0x123
    (by norm_num [FOUR_MIB])
  simpa using h

set_option maxRecDepth 16384

/-- Fact: `FOUR_MIB` divides the 32-bit wrap-around modulus. -/
theorem four_mib_dvd_u32 : FOUR_MIB ∣ U32_MOD := ⟨1024, by norm_num [FOUR_MIB, U32_MOD]⟩

/-- On a 4 MiB-aligned range whose length is `n` whole 4 MiB pages,
`map_range` takes the huge-page branch at every step and is literally the
sequence of `n` `map_4mib` calls. -/
theorem map_range_4mib_eq :
    ∀ (n : Nat) (s : ASState) (virt phys flags : Nat),
      virt % FOUR_MIB = 0 → phys % FOUR_MIB = 0 →
      map_range s virt phys (n * FOUR_MIB) flags = map4mibSeq s virt phys flags n := by
  intro n
  induction n with
  | zero =>
    intro s virt phys flags _ _
    rw [map_range.eq_def]
    simp [map4mibSeq]
  | succ n ih =>
    intro s virt phys flags hv hp
    have hle : FOUR_MIB ≤ (n + 1) * FOUR_MIB := by
      have h1 : 1 * FOUR_MIB ≤ (n + 1) * FOUR_MIB := Nat.mul_le_mul_right _ (by omega)
      simpa using h1
    have hne : (n + 1) * FOUR_MIB ≠ 0 := Nat.mul_ne_zero (by omega) (by norm_num [FOUR_MIB])
    rw [map_range.eq_def, dif_neg hne, if_pos ⟨hle, hv, hp⟩]
    simp only [map4mibSeq]
    cases hm : map_4mib s virt phys flags with
    | mk s1 e =>
      cases e with
      | none =>
        dsimp only
        have hlen : (n + 1) * FOUR_MIB - FOUR_MIB = n * FOUR_MIB := by
          rw [Nat.succ_mul]
          omega
        rw [hlen]
        apply ih
        · rw [Nat.mod_mod_of_dvd _ four_mib_dvd_u32]
          simp only [FOUR_MIB] at hv ⊢
          omega
        · rw [Nat.mod_mod_of_dvd _ four_mib_dvd_u32]
          simp only [FOUR_MIB] at hp ⊢
          omega
      | some err => dsimp only

/-- When the virtual and physical addresses disagree modulo 4 MiB (so
alignment forces 4 KiB granularity), `map_range` takes the 4 KiB branch at
every step and is literally the sequence of `n` `map_4kib` calls. -/
theorem map_range_4kib_eq :
    ∀ (n : Nat) (s : ASState) (virt phys flags : Nat),
      virt % FOUR_MIB ≠ phys % FOUR_MIB →
      map_range s virt phys (n * FOUR_KIB) flags = map4kibSeq s virt phys flags n := by
  intro n
  induction n with
  | zero =>
    intro s virt phys flags _
    rw [map_range.eq_def]
    simp [map4kibSeq]
  | succ n ih =>
    intro s virt phys flags hvp
    have hne : (n + 1) * FOUR_KIB ≠ 0 := Nat.mul_ne_zero (by omega) (by norm_num [FOUR_KIB])
    have hcond : ¬ (FOUR_MIB ≤ (n + 1) * FOUR_KIB ∧
        virt % FOUR_MIB = 0 ∧ phys % FOUR_MIB = 0) := by
      intro hc
      exact hvp (hc.2.1.trans hc.2.2.symm)
    rw [map_range.eq_def, dif_neg hne, if_neg hcond]
    simp only [map4kibSeq]
    cases hm : map_4kib s virt phys flags with
    | mk s1 e =>
      cases e with
      | none =>
        dsimp only
        have hlen : (n + 1) * FOUR_KIB - FOUR_KIB = n * FOUR_KIB := by
          rw [Nat.succ_mul]
          omega
        rw [hlen]
        apply ih
        rw [Nat.mod_mod_of_dvd _ four_mib_dvd_u32, Nat.mod_mod_of_dvd _ four_mib_dvd_u32]
        simp only [FOUR_KIB, FOUR_MIB] at hvp ⊢
        omega
      | some err => dsimp only

/-- Claim C5.  (1) On 4 MiB-aligned `(v, p)` with a length of `n` whole
4 MiB pages, `map_range` equals the sequence of `n` `map_4mib` calls, so
the final translation functions agree; (2) when `v` and `p` disagree modulo
4 MiB — alignment forces 4 KiB granularity — `map_range` equals the
sequence of `map_4kib` calls, again with identical translations;
(3) `map_range(0, 0, 8 MiB, WRITABLE)` on a fresh address space succeeds,
installs exactly 2 directory entries, both huge pages, and allocates no
page table from the context. -/
theorem claimC5_map_range_decomposition :
    (∀ (n : Nat) (s : ASState) (virt phys flags : Nat),
      virt % FOUR_MIB = 0 → phys % FOUR_MIB = 0 →
      map_range s virt phys (n * FOUR_MIB) flags = map4mibSeq s virt phys flags n ∧
      ∀ w, translate (map_range s virt phys (n * FOUR_MIB) flags).1 w =
        translate (map4mibSeq s virt phys flags n).1 w) ∧
    (∀ (n : Nat) (s : ASState) (virt phys flags : Nat),
      virt % FOUR_MIB ≠ phys % FOUR_MIB →
      map_range s virt phys (n * FOUR_KIB) flags = map4kibSeq s virt phys flags n ∧
      ∀ w, translate (map_range s virt phys (n * FOUR_KIB) flags).1 w =
        translate (map4kibSeq s virt phys flags n).1 w) ∧
    ((map_range mockAS 0 0 (8 * 1024 * 1024) WRITABLE).2 = none ∧
     countPresent ((map_range mockAS 0 0 (8 * 1024 * 1024) WRITABLE).1.mem mockAS.root) = 2 ∧
     (∀ i, i < 1024 →
       is_present ((map_range mockAS 0 0 (8 * 1024 * 1024) WRITABLE).1.mem mockAS.root i) =
         true →
       is_huge_page ((map_range mockAS 0 0 (8 * 1024 * 1024) WRITABLE).1.mem mockAS.root i) =
         true) ∧
     (map_range mockAS 0 0 (8 * 1024 * 1024) WRITABLE).1.free = mockAS.free) := by
  have h8 : (8 * 1024 * 1024 : Nat) = 2 * FOUR_MIB := by norm_num [FOUR_MIB]
  have hB := map_range_4mib_eq 2 mockAS 0 0 WRITABLE (by norm_num [FOUR_MIB])
    (by norm_num [FOUR_MIB])
  refine ⟨?_, ?_, ?_⟩
  · intro n s virt phys flags hv hp
    have h := map_range_4mib_eq n s virt phys flags hv hp
    exact ⟨h, fun w => by rw [h]⟩
  · intro n s virt phys flags hvp
    have h := map_range_4kib_eq n s virt phys flags hvp
    exact ⟨h, fun w => by rw [h]⟩
  · rw [h8, hB]
    decide

/-- Claim C5, witness. -/
theorem claimC5_map_range_decomposition_witness :
    map_range mockAS 0 0 (1 * FOUR_MIB) WRITABLE = map4mibSeq mockAS 0 0 WRITABLE 1 ∧
    map_range mockAS 0x1000 0x2000 (1 * FOUR_KIB) WRITABLE =
      map4kibSeq mockAS 0x1000 0x2000 WRITABLE 1 :=
  ⟨(claimC5_map_range_decomposition.1 1 mockAS 0 0 WRITABLE (by norm_num [FOUR_MIB])
      (by norm_num [FOUR_MIB])).1,
   (claimC5_map_range_decomposition.2.1 1 mockAS 0x1000 0x2000 WRITABLE
      (by norm_num [FOUR_MIB])).1⟩

/-- Claim C7, witness. -/
theorem claimC7_bump_invariants_witness :
    (0x1000 : Nat) ≤ 0x1FF0 ∧ 0x1FF0 + 16 ≤ 0x2000 ∧ (8 : Nat) ∣ 0x1FF0 ∧
    (0x1FF0 : Nat) < 0x2000 := by
  have h := claimC7_bump_invariants.1 ⟨0x2000, 0x1000⟩ 16 8 0x1FF0 ⟨0x1FF0, 0x1000⟩ (by decide)
  exact ⟨h.2.2.1, h.2.2.2.1, h.2.2.2.2.1, h.2.2.2.2.2 (by decide)⟩

end Kfs
